import Mathlib

-- Verification of the coroutine runtime in coroutine.h (namespace co).
-- The inline template bodies of Coroutine::Call and Coroutine::YieldValue and the
-- inline sleep wrappers are translated from the header; operations whose bodies are
-- not in the header (Yield, Wait, EndOfWait, Run, Stop, the scheduler) are modelled
-- from the specification, as marked on each definition.

namespace co

/-- States of a coroutine, from `enum class Coroutine::State` (coroutine.h lines 107-114). -/
inductive CoState where
  | kCoNew
  | kCoReady
  | kCoRunning
  | kCoYielded
  | kCoWaiting
  | kCoDead
deriving DecidableEq, Repr

/-- Scheduling-relevant fields of class `Coroutine` (coroutine.h lines 127-142):
`state_`, `caller_` (a `Coroutine*`, modelled as an optional coroutine id), `result_`
(a `void*`, modelled as an optional abstract address), the readability of `event_fd_`,
and `last_tick_`. -/
structure Coroutine where
  state : CoState
  caller : Option Nat
  result : Option Nat
  event : Bool
  lastTick : Nat
deriving DecidableEq, Repr

/-- A freshly constructed coroutine (coroutine.h lines 131-142: `caller_ = nullptr`,
`result_ = nullptr`, `last_tick_ = 0`; initial state New, event not signalled). -/
def initCoroutine : Coroutine :=
  { state := .kCoNew, caller := none, result := none, event := false, lastTick := 0 }

/-- Scheduling-relevant fields of `CoroutineMachine` (coroutine.h lines 199-208):
the coroutines (slots `0 .. n-1` of `cos` are the live ones), `tick_count_`,
`running_`, and the readability of `interrupt_fd_`. -/
structure CoroutineMachine where
  cos : Nat → Coroutine
  n : Nat
  tick : Nat
  running : Bool
  interrupt : Bool

/-- A machine holding `n` freshly constructed coroutines, before any is dispatched. -/
def initialMachine (n : Nat) : CoroutineMachine :=
  { cos := fun _ => initCoroutine, n := n, tick := 0, running := true,
    interrupt := false }

/-- Update of coroutine `i` of the machine in place. -/
def updCo (M : CoroutineMachine) (i : Nat) (f : Coroutine → Coroutine) :
    CoroutineMachine :=
  { M with cos := Function.update M.cos i (f (M.cos i)) }

/-- Suspension performed inside `Coroutine::Call` (coroutine.h lines 247-252): set
`state_ = State::kCoYielded`, record `last_tick_ = machine_.TickCount()` and transfer
to the machine's yield context.  The caller's own event is not signalled. -/
def callSuspend (c : Coroutine) (tick : Nat) : Coroutine :=
  { c with state := .kCoYielded, lastTick := tick }

/-- Modelled from the spec: the suspension performed by `Coroutine::Yield` (spec §4.1;
the body is not under src/, only the declaration at coroutine.h line 51).  Yield
signals its own event, transitions to Yielded, updates `last_tick`, and transfers to
the machine's yield context. -/
def yieldSuspendSpec (c : Coroutine) (tick : Nat) : Coroutine :=
  { c with state := .kCoYielded, event := true, lastTick := tick }

/-- Linkage writes at the top of `Coroutine::Call` (coroutine.h lines 237-238):
`callee.caller_ = this; callee.result_ = &result;`. -/
def setLink (M : CoroutineMachine) (j i slot : Nat) : CoroutineMachine :=
  updCo M j (fun c => { c with caller := some i, result := some slot })

/-- Wake-up of the callee in `Coroutine::Call` (coroutine.h lines 240-246): Start the
callee if it is New, otherwise trigger its event. -/
def wakeCallee (M : CoroutineMachine) (j : Nat) : CoroutineMachine :=
  if (M.cos j).state = .kCoNew then
    updCo M j (fun c => { c with state := .kCoReady })
  else
    updCo M j (fun c => { c with event := true })

/-- Pre-suspension phase of `Coroutine::Call` performed by running coroutine `i` on
callee `j`, with the caller-local `T result` storage at abstract address `slot`
(coroutine.h lines 234-252). -/
def callPrePhase (M : CoroutineMachine) (i j slot : Nat) : CoroutineMachine :=
  updCo (wakeCallee (setLink M j i slot) j) i (fun c => callSuspend c M.tick)

/-- Resume phase of `Coroutine::Call` (coroutine.h lines 253-257): clear the callee's
`caller_` and `result_`. -/
def clearLink (M : CoroutineMachine) (j : Nat) : CoroutineMachine :=
  updCo M j (fun c => { c with caller := none, result := none })

/-- Caller notification in `Coroutine::YieldValue` (coroutine.h lines 217-220): if
`caller_` is set, trigger the caller's event. -/
def triggerCaller (M : CoroutineMachine) (i : Nat) : CoroutineMachine :=
  match (M.cos i).caller with
  | some j => updCo M j (fun c => { c with event := true })
  | none => M

/-- One observable transition of a machine.  The two phases of `Call`, the suspension
of `YieldValue` and the death at the end of a body are translated from coroutine.h;
`Start`, `Yield`, `Wait` and the scheduler's switch-in are modelled from the spec
(their bodies are not under src/). -/
inductive MStep : CoroutineMachine → CoroutineMachine → Prop where
  | startStep (M : CoroutineMachine) (i : Nat) :
      i < M.n → (M.cos i).state = .kCoNew →
      MStep M (updCo M i (fun c => { c with state := .kCoReady }))
  | switchIn (M : CoroutineMachine) (i : Nat) :
      i < M.n →
      ((M.cos i).state = .kCoReady ∨
        ((M.cos i).state = .kCoYielded ∧ (M.cos i).event) ∨
        (M.cos i).state = .kCoWaiting) →
      (∀ j, j < M.n → (M.cos j).state ≠ .kCoRunning) →
      MStep M { updCo M i (fun c => { c with state := .kCoRunning, event := false })
                with tick := M.tick + 1 }
  | yieldStep (M : CoroutineMachine) (i : Nat) :
      i < M.n → (M.cos i).state = .kCoRunning →
      MStep M (updCo M i (fun c => yieldSuspendSpec c M.tick))
  | yieldValueStep (M : CoroutineMachine) (i : Nat) :
      i < M.n → (M.cos i).state = .kCoRunning →
      MStep M (updCo (triggerCaller M i) i
        (fun c => { c with state := .kCoYielded, lastTick := M.tick }))
  | callPre (M : CoroutineMachine) (i j slot : Nat) :
      i < M.n → j < M.n → i ≠ j → (M.cos i).state = .kCoRunning →
      MStep M (callPrePhase M i j slot)
  | callPost (M : CoroutineMachine) (i j : Nat) :
      i < M.n → j < M.n → (M.cos i).state = .kCoRunning →
      (M.cos j).caller = some i →
      MStep M (clearLink M j)
  | waitStep (M : CoroutineMachine) (i : Nat) :
      i < M.n → (M.cos i).state = .kCoRunning →
      MStep M (updCo M i (fun c => { c with state := .kCoWaiting, lastTick := M.tick }))
  | exitStep (M : CoroutineMachine) (i : Nat) :
      i < M.n → (M.cos i).state = .kCoRunning →
      MStep M (updCo M i (fun c => { c with state := .kCoDead }))

/-- Invariant of spec §3: a coroutine's `caller_` is non-null iff its `result_` is. -/
def callerResultIff (M : CoroutineMachine) : Prop :=
  ∀ i, ((M.cos i).caller).isSome = ((M.cos i).result).isSome

/-- At most one coroutine of the machine is in state Running. -/
def atMostOneRunning (M : CoroutineMachine) : Prop :=
  ∀ i j, i < M.n → j < M.n →
    (M.cos i).state = .kCoRunning → (M.cos j).state = .kCoRunning → i = j

/-- Exactly one coroutine of the machine is in state Running. -/
def exactlyOneRunning (M : CoroutineMachine) : Prop :=
  ∃ i, i < M.n ∧ (M.cos i).state = .kCoRunning ∧
    ∀ j, j < M.n → (M.cos j).state = .kCoRunning → j = i

/-- Memory contents after `memcpy(dst, &value, n)` where `bytes` (of length `n`, the
object representation of the copied value) replaces the `n` bytes at `dst`. -/
def memcpyBytes (mem : Nat → UInt8) (dst : Nat) (bytes : List UInt8) : Nat → UInt8 :=
  fun a => if dst ≤ a ∧ a - dst < bytes.length then bytes.getD (a - dst) 0 else mem a

/-- State acted on by `Coroutine::YieldValue`: flat byte memory, the yielding
coroutine, the readability of the caller's event fd, and the machine's tick count. -/
structure YVState where
  mem : Nat → UInt8
  selfCo : Coroutine
  callerEvent : Bool
  tick : Nat

/-- Byte-level model of `Coroutine::YieldValue` (coroutine.h lines 211-231), where
`bytes` is the `sizeof(value)`-byte object representation of `value`: if `result_` is
non-null the bytes are copied there; if `caller_` is non-null the caller's event is
triggered; then the coroutine suspends as Yielded with
`last_tick_ = machine_.TickCount()`, leaving its own event untouched. -/
def yieldValueBytes (s : YVState) (bytes : List UInt8) : YVState :=
  let mem1 := match s.selfCo.result with
    | some dst => memcpyBytes s.mem dst bytes
    | none => s.mem
  let ce := if s.selfCo.caller.isSome then true else s.callerEvent
  { mem := mem1, callerEvent := ce, tick := s.tick,
    selfCo := { s.selfCo with state := .kCoYielded, lastTick := s.tick } }

/-- Modelled from the spec: the state `Coroutine::EndOfWait` acts on — the optional
one-shot timer fd of the current Wait, the coroutine's private `event_fd_`, whether
the timer has been closed, and whether the event is signalled.  The bodies of `Wait`
and `EndOfWait` are not under src/ (declarations at coroutine.h lines 68-75 and 118). -/
structure WaitEnd where
  timerFd : Option Int
  eventFd : Int
  timerClosed : Bool
  eventSignalled : Bool
deriving DecidableEq, Repr

/-- Modelled from the spec: `Coroutine::EndOfWait` (spec §4.1 Wait), run when Wait is
resumed with the fd `result` that triggered the wake: if it is the timer fd, close the
timer and return -1; if it is `event_fd`, clear the event and return -1; otherwise
return `result`. -/
def EndOfWait (w : WaitEnd) (result : Int) : WaitEnd × Int :=
  if w.timerFd = some result then ({ w with timerClosed := true }, -1)
  else if result = w.eventFd then ({ w with eventSignalled := false }, -1)
  else (w, result)

/-- Wrap of an unbounded integer to the value range of a signed 64-bit `long long`. -/
def wrapInt64 (x : Int) : Int := (x + 2 ^ 63) % 2 ^ 64 - 2 ^ 63

/-- Nanosecond argument that `Coroutine::Millisleep` passes to `Nanosleep`
(coroutine.h line 81): `msecs * 1000000LL`, computed in 64-bit signed arithmetic. -/
def millisleepNsArg (msecs : Int) : Int := wrapInt64 (msecs * 1000000)

/-- Nanosecond argument that `Coroutine::Sleep` passes to `Nanosleep`
(coroutine.h line 82): `secs * 1000000000LL`, computed in 64-bit signed arithmetic. -/
def sleepNsArg (secs : Int) : Int := wrapInt64 (secs * 1000000000)

/-- Modelled from the spec: `CoroutineMachine::Stop` (spec §4.2; body not under src/,
declaration at coroutine.h line 160): clears the running flag and writes to the
interrupt fd. -/
def Stop (M : CoroutineMachine) : CoroutineMachine :=
  { M with running := false, interrupt := true }

/-- Modelled from the spec: the interrupt check in `CoroutineMachine::Run`'s loop
(spec §4.2; body not under src/): if the interrupt fd fired, drain it and test the
running flag; the loop exits (second component `false`) when the flag is clear.
Coroutines are not touched. -/
def runInterruptCheck (M : CoroutineMachine) : CoroutineMachine × Bool :=
  if M.interrupt then ({ M with interrupt := false }, M.running)
  else (M, true)

/-- Instructions of the two-coroutine Call/YieldValue scenario: the caller's body is a
sequence of `callInst` (each one `Call<int>` on the other coroutine); the callee's
body is a sequence of `yieldValue v` (each one `YieldValue(v)`); a body with no
instructions left returns, which leaves the coroutine Dead. -/
inductive Inst where
  | yieldValue (v : Nat)
  | callInst
deriving DecidableEq, Repr

/-- One coroutine of the scenario machine: its scheduling fields as in `Coroutine`
(coroutine.h lines 127-142; here `caller_`/`result_` either are null or point at the
other coroutine, so they are booleans), plus its remaining body `prog`, whether it is
suspended inside `Call` (`pending`), the caller-local `T result` storage that `Call`
exposes through `result_` (`slot`), and the log of its completed `Call`s (`retlog`,
recording each returned value together with the callee's state at the instant that
`Call` returned). -/
structure SimCo where
  state : CoState
  caller : Bool
  result : Bool
  event : Bool
  lastTick : Nat
  prog : List Inst
  pending : Bool
  slot : Nat
  retlog : List (Nat × CoState)
deriving DecidableEq, Repr

/-- The scenario machine: coroutine `a` (the caller, constructed and started first),
coroutine `b` (the callee), and the machine's tick count. -/
structure Sim where
  a : SimCo
  b : SimCo
  tick : Nat
deriving DecidableEq, Repr

/-- Read coroutine `which` of the scenario machine (`false` is `a`, `true` is `b`). -/
def getCo (s : Sim) (which : Bool) : SimCo :=
  if which then s.b else s.a

/-- Replace coroutine `which` of the scenario machine. -/
def setCo (s : Sim) (which : Bool) (c : SimCo) : Sim :=
  if which then { s with b := c } else { s with a := c }

/-- Update coroutine `which` of the scenario machine in place. -/
def mapCo (s : Sim) (which : Bool) (f : SimCo → SimCo) : Sim :=
  setCo s which (f (getCo s which))

/-- Run coroutine `self` of the scenario from its current resume point to its next
suspension (or to its death).  The `yieldValue` case is `Coroutine::YieldValue`
(coroutine.h lines 211-231): copy the value into the caller's slot if `result_` is
set, trigger the caller's event if `caller_` is set, then suspend as Yielded without
signalling the own event.  The `callInst` case is the pre-suspension phase of
`Coroutine::Call` (lines 234-252): set the callee's `caller_` and `result_`, Start the
callee if it is New and trigger its event otherwise, then suspend as Yielded.  The
empty case is the body returning, which leaves the coroutine Dead. -/
def execInst (s : Sim) (self : Bool) : Sim :=
  match (getCo s self).prog with
  | [] => mapCo s self (fun c => { c with state := .kCoDead })
  | .yieldValue v :: rest =>
      let s1 := if (getCo s self).result then
                  mapCo s (!self) (fun o => { o with slot := v })
                else s
      let s2 := if (getCo s1 self).caller then
                  mapCo s1 (!self) (fun o => { o with event := true })
                else s1
      mapCo s2 self (fun c =>
        { c with state := .kCoYielded, lastTick := s2.tick, prog := rest })
  | .callInst :: rest =>
      let s1 := mapCo s (!self) (fun o => { o with caller := true, result := true })
      let s2 := if (getCo s1 (!self)).state = .kCoNew then
                  mapCo s1 (!self) (fun o => { o with state := .kCoReady })
                else
                  mapCo s1 (!self) (fun o => { o with event := true })
      mapCo s2 self (fun c =>
        { c with state := .kCoYielded, lastTick := s2.tick, prog := rest,
                 pending := true })

/-- Resume phase of `Coroutine::Call` (coroutine.h lines 253-257), run when a
coroutine that suspended inside `Call` is rescheduled: take the value the callee
stored in the caller-local `result` (recording, as a specification observation, the
callee's state at this instant), and clear the callee's `caller_` and `result_`. -/
def finishPending (s : Sim) (self : Bool) : Sim :=
  let c := getCo s self
  if c.pending then
    let s1 := setCo s self
      { c with pending := false,
               retlog := c.retlog ++ [(c.slot, (getCo s (!self)).state)] }
    mapCo s1 (!self) (fun o => { o with caller := false, result := false })
  else s

/-- Modelled from the spec: whether a coroutine is runnable — Ready, or Yielded with
its event fd readable (spec §4.2 selection policy; `Run`'s body is not under src/). -/
def isCandidate (c : SimCo) : Bool :=
  match c.state with
  | .kCoReady => true
  | .kCoYielded => c.event
  | _ => false

/-- Modelled from the spec: pick the runnable coroutine with the smallest `last_tick`
(oldest first, spec §4.2); `none` when nothing is runnable. -/
def chooseRunnable (s : Sim) : Option Bool :=
  match isCandidate s.a, isCandidate s.b with
  | false, false => none
  | true, false => some false
  | false, true => some true
  | true, true => if s.a.lastTick ≤ s.b.lastTick then some false else some true

/-- Modelled from the spec: one scheduling decision of `Run` (spec §4.2): increment
the tick count, switch into the chosen coroutine (state Running, its event fd
drained on resume), finish a suspended `Call` if one is pending, and run the body to
its next suspension. -/
def simStep (s : Sim) : Sim :=
  match chooseRunnable s with
  | none => s
  | some i =>
      let s1 := { s with tick := s.tick + 1 }
      let s2 := mapCo s1 i (fun c => { c with state := .kCoRunning, event := false })
      execInst (finishPending s2 i) i

/-- A fresh scenario coroutine in state `st` with body `p` (cf. the `Coroutine`
constructor fields, coroutine.h lines 127-142). -/
def initSimCo (st : CoState) (p : List Inst) : SimCo :=
  { state := st, caller := false, result := false, event := false, lastTick := 0,
    prog := p, pending := false, slot := 0, retlog := [] }

/-- The generator scenario: the caller `a` is Ready (autostarted) with one `Call` per
expected value; the callee `b` is New with body
`YieldValue(v1); ...; YieldValue(vk); return`. -/
def genSim (vs : List Nat) : Sim :=
  { a := initSimCo .kCoReady (List.replicate vs.length .callInst),
    b := initSimCo .kCoNew (vs.map Inst.yieldValue),
    tick := 0 }

/-- Run of the generator scenario to quiescence: `2k+1` scheduling decisions suffice
for `k` values. -/
def runSim (vs : List Nat) : Sim :=
  simStep^[2 * vs.length + 1] (genSim vs)

/-- Caller coroutine of the generator scenario after it has dispatched its next
`Call` and suspended: Yielded with its event not signalled, `calls` further `Call`s
remaining, local slot `sl`, and `Call` log `acc`. -/
def midA (calls : Nat) (sl : Nat) (acc : List (Nat × CoState)) (ta : Nat) : SimCo :=
  { state := .kCoYielded, caller := false, result := false, event := false,
    lastTick := ta, prog := List.replicate calls .callInst, pending := true,
    slot := sl, retlog := acc }

/-- Callee coroutine of the generator scenario while a `Call` on it is in flight:
linkage set, values `rest` still to yield. -/
def midB (st : CoState) (ev : Bool) (rest : List Nat) (tb : Nat) : SimCo :=
  { state := st, caller := true, result := true, event := ev, lastTick := tb,
    prog := rest.map Inst.yieldValue, pending := false, slot := 0, retlog := [] }

/-- A coroutine that is currently Running (its event not signalled), as a sample
input for the suspension comparisons. -/
def runningSample : Coroutine :=
  { initCoroutine with state := .kCoRunning }

/-- Sample `YieldValue` state: memory filled with the byte 7, a Running coroutine
linked to caller 0 with result slot at address 100, the caller's event fd dormant. -/
def yvSample : YVState :=
  { mem := fun _ => 7,
    selfCo := { state := .kCoRunning, caller := some 0, result := some 100,
                event := false, lastTick := 0 },
    callerEvent := false, tick := 3 }

/-- Sample Wait-resume state: a timeout timer at fd 5, the private event fd at 6. -/
def weSample : WaitEnd :=
  { timerFd := some 5, eventFd := 6, timerClosed := false, eventSignalled := true }

/-- Pointwise description of `updCo`. -/
lemma updCo_cos_apply (M : CoroutineMachine) (i : Nat) (f : Coroutine → Coroutine)
    (k : Nat) :
    (updCo M i f).cos k = if k = i then f (M.cos i) else M.cos k := by
  simp [updCo, Function.update_apply]

/-- Entries other than the callee are untouched by `setLink`. -/
lemma setLink_cos_other (M : CoroutineMachine) (j i slot p : Nat) (hp : p ≠ j) :
    (setLink M j i slot).cos p = M.cos p := by
  simp [setLink, updCo_cos_apply, hp]

/-- Entries other than the callee are untouched by `wakeCallee`. -/
lemma wakeCallee_cos_other (M : CoroutineMachine) (j p : Nat) (hp : p ≠ j) :
    (wakeCallee M j).cos p = M.cos p := by
  unfold wakeCallee
  split_ifs <;> simp [updCo_cos_apply, hp]

/-- States are untouched by `setLink`. -/
lemma setLink_cos_state (M : CoroutineMachine) (j i slot k : Nat) :
    ((setLink M j i slot).cos k).state = (M.cos k).state := by
  by_cases hk : k = j <;> simp [setLink, updCo_cos_apply, hk]

/-- States are untouched by `clearLink`. -/
lemma clearLink_cos_state (M : CoroutineMachine) (j k : Nat) :
    ((clearLink M j).cos k).state = (M.cos k).state := by
  by_cases hk : k = j <;> simp [clearLink, updCo_cos_apply, hk]

/-- States are untouched by `triggerCaller`. -/
lemma triggerCaller_cos_state (M : CoroutineMachine) (i k : Nat) :
    ((triggerCaller M i).cos k).state = (M.cos k).state := by
  unfold triggerCaller
  split
  · next j _ =>
      by_cases hk : k = j <;> simp [updCo_cos_apply, hk]
  · rfl

/-- The number of live slots is untouched by `wakeCallee`. -/
lemma wakeCallee_n (M : CoroutineMachine) (j : Nat) : (wakeCallee M j).n = M.n := by
  unfold wakeCallee
  split_ifs <;> rfl

/-- The number of live slots is untouched by `triggerCaller`. -/
lemma triggerCaller_n (M : CoroutineMachine) (i : Nat) :
    (triggerCaller M i).n = M.n := by
  unfold triggerCaller
  split <;> rfl

/-- A coroutine Running after `wakeCallee` was already Running. -/
lemma wakeCallee_cos_state_running (M : CoroutineMachine) (j k : Nat)
    (h : ((wakeCallee M j).cos k).state = .kCoRunning) :
    (M.cos k).state = .kCoRunning := by
  unfold wakeCallee at h
  split_ifs at h with hnew
  · rw [updCo_cos_apply] at h
    by_cases hk : k = j
    · rw [if_pos hk] at h
      simp at h
    · rw [if_neg hk] at h
      exact h
  · rw [updCo_cos_apply] at h
    by_cases hk : k = j
    · rw [if_pos hk] at h
      rw [hk]
      exact h
    · rw [if_neg hk] at h
      exact h

/-- The caller-result iff invariant passes through `updCo` when the update keeps the
two fields' non-nullness in agreement. -/
lemma callerResultIff_updCo (M : CoroutineMachine) (i : Nat)
    (f : Coroutine → Coroutine) (h : callerResultIff M)
    (hf : ((f (M.cos i)).caller).isSome = ((f (M.cos i)).result).isSome) :
    callerResultIff (updCo M i f) := by
  intro k
  rw [updCo_cos_apply]
  by_cases hk : k = i
  · rw [if_pos hk]
    exact hf
  · rw [if_neg hk]
    exact h k

/-- The caller-result iff invariant passes through `triggerCaller`. -/
lemma callerResultIff_triggerCaller (M : CoroutineMachine) (i : Nat)
    (h : callerResultIff M) : callerResultIff (triggerCaller M i) := by
  unfold triggerCaller
  split
  · next j _ => exact callerResultIff_updCo M j _ h (h j)
  · exact h

/-- At-most-one-Running passes through machines with identical sizes and states. -/
lemma atMostOneRunning_congr (M N : CoroutineMachine) (hn : N.n = M.n)
    (hs : ∀ k, (N.cos k).state = (M.cos k).state)
    (h : atMostOneRunning M) : atMostOneRunning N := by
  intro x y hx hy hrx hry
  rw [hn] at hx hy
  rw [hs x] at hrx
  rw [hs y] at hry
  exact h x y hx hy hrx hry

/-- At-most-one-Running passes through `updCo` when the update cannot make a
non-Running coroutine Running. -/
lemma atMostOneRunning_updCo (M : CoroutineMachine) (i : Nat)
    (f : Coroutine → Coroutine) (h : atMostOneRunning M)
    (hf : (f (M.cos i)).state = .kCoRunning → (M.cos i).state = .kCoRunning) :
    atMostOneRunning (updCo M i f) := by
  intro x y hx hy hrx hry
  rw [updCo_cos_apply] at hrx hry
  by_cases hxi : x = i <;> by_cases hyi : y = i
  · rw [hxi, hyi]
  · rw [if_pos hxi] at hrx
    rw [if_neg hyi] at hry
    rw [hxi]
    exact h i y (hxi ▸ hx) hy (hf hrx) hry
  · rw [if_neg hxi] at hrx
    rw [if_pos hyi] at hry
    rw [hyi]
    exact h x i hx (hyi ▸ hy) hrx (hf hry)
  · rw [if_neg hxi] at hrx
    rw [if_neg hyi] at hry
    exact h x y hx hy hrx hry

/-- Claim C3: `YieldValue(v)` copies exactly the `sizeof(v)` object-representation
bytes of `v` to the result slot when the slot is non-null (and touches no other byte,
and copies nothing when the slot is null), triggers the caller's event when the
caller reference is non-null, and suspends the coroutine in state Yielded with
`last_tick` set to the machine's tick count, without signalling its own event. -/
theorem c3_yieldvalue_effects (s : YVState) (bytes : List UInt8) :
    (yieldValueBytes s bytes).selfCo.state = CoState.kCoYielded ∧
    (yieldValueBytes s bytes).selfCo.lastTick = s.tick ∧
    (yieldValueBytes s bytes).selfCo.event = s.selfCo.event ∧
    (s.selfCo.result = none → (yieldValueBytes s bytes).mem = s.mem) ∧
    (∀ dst, s.selfCo.result = some dst →
      (∀ k, k < bytes.length →
        (yieldValueBytes s bytes).mem (dst + k) = bytes.getD k 0) ∧
      (∀ a, a < dst ∨ dst + bytes.length ≤ a →
        (yieldValueBytes s bytes).mem a = s.mem a)) ∧
    (s.selfCo.caller.isSome → (yieldValueBytes s bytes).callerEvent = true) := by
  refine ⟨rfl, rfl, rfl, ?_, ?_, ?_⟩
  · intro h
    simp [yieldValueBytes, h]
  · intro dst hdst
    have hmem : (yieldValueBytes s bytes).mem = memcpyBytes s.mem dst bytes := by
      simp [yieldValueBytes, hdst]
    constructor
    · intro k hk
      rw [hmem]
      show (if dst ≤ dst + k ∧ dst + k - dst < bytes.length
            then bytes.getD (dst + k - dst) 0 else s.mem (dst + k)) = bytes.getD k 0
      rw [if_pos ⟨Nat.le_add_right _ _, by omega⟩, Nat.add_sub_cancel_left]
    · intro a ha
      rw [hmem]
      show (if dst ≤ a ∧ a - dst < bytes.length
            then bytes.getD (a - dst) 0 else s.mem a) = s.mem a
      rw [if_neg (by omega)]
  · intro h
    simp [yieldValueBytes, h]

/-- Witness for C3 at a concrete input: copying the two bytes `[5, 6]` to address 100
writes 5 at 100, leaves 99 at its old value 7, triggers the caller's event and leaves
the coroutine Yielded. -/
theorem c3_yieldvalue_effects_witness :
    (yieldValueBytes yvSample [5, 6]).mem 100 = 5 ∧
    (yieldValueBytes yvSample [5, 6]).mem 99 = 7 ∧
    (yieldValueBytes yvSample [5, 6]).callerEvent = true ∧
    (yieldValueBytes yvSample [5, 6]).selfCo.state = CoState.kCoYielded := by
  obtain ⟨h1, _, _, _, h5, h6⟩ := c3_yieldvalue_effects yvSample [5, 6]
  obtain ⟨hin, hout⟩ := h5 100 rfl
  refine ⟨?_, ?_, h6 rfl, h1⟩
  · have := hin 0 (by decide)
    simpa using this
  · have := hout 99 (Or.inl (by decide))
    simpa [yvSample] using this

/-- Claim C4 (amended): the caller's suspension inside `Call` transitions the caller
to Yielded and updates `last_tick` exactly as Yield does, but unlike Yield it does
not signal the caller's own event — the event is left as it was. -/
theorem c4_call_suspend_vs_yield (c : Coroutine) (t : Nat) :
    callSuspend c t = { yieldSuspendSpec c t with event := c.event } ∧
    (callSuspend c t).state = CoState.kCoYielded ∧
    (callSuspend c t).lastTick = t ∧
    (callSuspend c t).event = c.event :=
  ⟨rfl, rfl, rfl, rfl⟩

/-- Counterexample for C4 as stated: on a Running coroutine with a dormant event,
`Call`'s suspension is not the suspension performed by Yield — Yield signals the
coroutine's own event and `Call` does not. -/
theorem c4_counterexample :
    callSuspend runningSample 5 ≠ yieldSuspendSpec runningSample 5 ∧
    (callSuspend runningSample 5).event = false ∧
    (yieldSuspendSpec runningSample 5).event = true := by
  decide

/-- Claim C5: when Wait resumes, if the triggering descriptor is the timeout timer
fd, the timer is closed and Wait returns -1; if it is the private `event_fd`, the
event is cleared and Wait returns -1; otherwise Wait returns the fd that became
ready. -/
theorem c5_endofwait (w : WaitEnd) (r : Int) :
    (w.timerFd = some r → EndOfWait w r = ({ w with timerClosed := true }, -1)) ∧
    (w.timerFd ≠ some r → r = w.eventFd →
      EndOfWait w r = ({ w with eventSignalled := false }, -1)) ∧
    (w.timerFd ≠ some r → r ≠ w.eventFd → EndOfWait w r = (w, r)) := by
  refine ⟨?_, ?_, ?_⟩
  · intro h
    unfold EndOfWait
    rw [if_pos h]
  · intro h1 h2
    unfold EndOfWait
    rw [if_neg h1, if_pos h2]
  · intro h1 h2
    unfold EndOfWait
    rw [if_neg h1, if_neg h2]

/-- Witness for C5 at concrete inputs: with the timer at fd 5 and the event at fd 6,
resuming on 5 closes the timer, resuming on 6 clears the event, resuming on 7
returns 7. -/
theorem c5_endofwait_witness :
    EndOfWait weSample 5 = ({ weSample with timerClosed := true }, -1) ∧
    EndOfWait weSample 6 = ({ weSample with eventSignalled := false }, -1) ∧
    EndOfWait weSample 7 = (weSample, 7) :=
  ⟨(c5_endofwait weSample 5).1 rfl,
   (c5_endofwait weSample 6).2.1 (by decide) rfl,
   (c5_endofwait weSample 7).2.2 (by decide) (by decide)⟩

/-- Identity of the 64-bit wrap inside the representable range. -/
lemma wrapInt64_eq (x : Int) (h1 : -2 ^ 63 ≤ x) (h2 : x < 2 ^ 63) :
    wrapInt64 x = x := by
  have hp : (2 : Int) ^ 63 = 9223372036854775808 := by norm_num
  have hq : (2 : Int) ^ 64 = 18446744073709551616 := by norm_num
  unfold wrapInt64
  rw [hp] at h1 h2 ⊢
  rw [hq]
  rw [Int.emod_eq_of_lt (by omega) (by omega)]
  omega

/-- Claim C8: `Millisleep(msecs)` passes exactly `msecs * 1000000` nanoseconds to
`Nanosleep` and `Sleep(secs)` passes exactly `secs * 1000000000`, the products being
computed in 64-bit signed integer arithmetic (exact whenever they are representable
in 64 bits). -/
theorem c8_sleep_args (msecs secs : Int)
    (hm1 : -2 ^ 63 ≤ msecs * 1000000) (hm2 : msecs * 1000000 < 2 ^ 63)
    (hs1 : -2 ^ 63 ≤ secs * 1000000000) (hs2 : secs * 1000000000 < 2 ^ 63) :
    millisleepNsArg msecs = msecs * 1000000 ∧
    sleepNsArg secs = secs * 1000000000 :=
  ⟨wrapInt64_eq _ hm1 hm2, wrapInt64_eq _ hs1 hs2⟩

/-- Witness for C8 at concrete inputs: 5 ms sleeps 5000000 ns, 2 s sleeps
2000000000 ns. -/
theorem c8_sleep_args_witness :
    millisleepNsArg 5 = 5 * 1000000 ∧ sleepNsArg 2 = 2 * 1000000000 :=
  c8_sleep_args 5 2 (by norm_num) (by norm_num) (by norm_num) (by norm_num)

/-- Claim C9: `Stop` clears the running flag and makes `Run`'s loop exit at its next
interrupt check, leaving every coroutine untouched: every coroutine that is alive
(and, at the poll point, not Running) when `Stop` is invoked is still alive and in
the same non-Running state after `Run` returns. -/
theorem c9_stop_frame (M : CoroutineMachine)
    (h : ∀ i, i < M.n → (M.cos i).state ≠ CoState.kCoRunning) :
    (Stop M).running = false ∧
    (runInterruptCheck (Stop M)).2 = false ∧
    (∀ i, (runInterruptCheck (Stop M)).1.cos i = M.cos i) ∧
    (runInterruptCheck (Stop M)).1.n = M.n ∧
    (∀ i, i < M.n → (M.cos i).state ≠ CoState.kCoDead →
      ((runInterruptCheck (Stop M)).1.cos i).state ≠ CoState.kCoDead ∧
      ((runInterruptCheck (Stop M)).1.cos i).state ≠ CoState.kCoRunning) := by
  refine ⟨rfl, rfl, fun i => rfl, rfl, fun i hi hd => ⟨hd, h i hi⟩⟩

/-- Witness for C9 at a concrete input: stopping a machine of one New coroutine
 exits the loop and preserves the coroutine. -/
theorem c9_stop_frame_witness :
    (Stop (initialMachine 1)).running = false ∧
    (runInterruptCheck (Stop (initialMachine 1))).2 = false ∧
    (runInterruptCheck (Stop (initialMachine 1))).1.cos 0 =
      (initialMachine 1).cos 0 := by
  have h := c9_stop_frame (initialMachine 1)
    (fun i _ => by simp [initialMachine, initCoroutine])
  exact ⟨h.1, h.2.1, h.2.2.1 0⟩

/-- Claim C10: the pre-suspension phase of `Call` unconditionally overwrites the
callee's `caller_` and `result_` with the new caller and its local slot, with no
check for an in-flight Call; the events of all coroutines other than the callee —
in particular of any prior caller distinct from the callee — are untouched, so a
replaced prior caller is never triggered. -/
theorem c10_call_overwrites (M : CoroutineMachine) (i j slot : Nat) (hij : i ≠ j) :
    ((callPrePhase M i j slot).cos j).caller = some i ∧
    ((callPrePhase M i j slot).cos j).result = some slot ∧
    (∀ p, p ≠ j → ((callPrePhase M i j slot).cos p).event = (M.cos p).event) ∧
    (∀ p, (M.cos j).caller = some p → p ≠ j →
      ((callPrePhase M i j slot).cos p).event = (M.cos p).event) := by
  have hji : j ≠ i := fun hcon => hij hcon.symm
  have hother : ∀ p, p ≠ j →
      ((callPrePhase M i j slot).cos p).event = (M.cos p).event := by
    intro p hp
    rw [callPrePhase, updCo_cos_apply]
    by_cases hpi : p = i
    · rw [if_pos hpi, hpi]
      show ((wakeCallee (setLink M j i slot) j).cos i).event = (M.cos i).event
      rw [wakeCallee_cos_other (setLink M j i slot) j i hij,
        setLink_cos_other M j i slot i hij]
    · rw [if_neg hpi]
      rw [wakeCallee_cos_other (setLink M j i slot) j p hp,
        setLink_cos_other M j i slot p hp]
  have hcosj : (callPrePhase M i j slot).cos j =
      (wakeCallee (setLink M j i slot) j).cos j := by
    rw [callPrePhase, updCo_cos_apply, if_neg hji]
  refine ⟨?_, ?_, hother, fun p _ hp => hother p hp⟩
  · rw [hcosj]
    unfold wakeCallee
    split_ifs <;> simp [updCo_cos_apply, setLink, Function.update_apply]
  · rw [hcosj]
    unfold wakeCallee
    split_ifs <;> simp [updCo_cos_apply, setLink, Function.update_apply]

/-- Witness for C10 at a concrete input: calling coroutine 1 from coroutine 0 of a
fresh two-coroutine machine links 1 to 0 with slot 7 and leaves 0's event alone. -/
theorem c10_call_overwrites_witness :
    ((callPrePhase (initialMachine 2) 0 1 7).cos 1).caller = some 0 ∧
    ((callPrePhase (initialMachine 2) 0 1 7).cos 1).result = some 7 ∧
    ((callPrePhase (initialMachine 2) 0 1 7).cos 0).event =
      ((initialMachine 2).cos 0).event := by
  obtain ⟨h1, h2, h3, _⟩ := c10_call_overwrites (initialMachine 2) 0 1 7
    (by decide)
  exact ⟨h1, h2, h3 0 (by decide)⟩

/-- Claim C6: `caller_` is non-null iff `result_` is non-null — both are null at
construction, and every machine transition preserves the property: `Call` sets both
before waking the callee and clears both together on resume, and `YieldValue`
modifies neither. -/
theorem c6_caller_result_invariant :
    (∀ n, callerResultIff (initialMachine n)) ∧
    ∀ M MM, callerResultIff M → MStep M MM → callerResultIff MM := by
  constructor
  · intro n k
    rfl
  · intro M MM h st
    cases st with
    | startStep i hi hs => exact callerResultIff_updCo M i _ h (h i)
    | switchIn i hi hr hnone =>
        intro k
        exact callerResultIff_updCo M i
          (fun c => { c with state := .kCoRunning, event := false }) h (h i) k
    | yieldStep i hi hr => exact callerResultIff_updCo M i _ h (h i)
    | yieldValueStep i hi hr =>
        have h1 := callerResultIff_triggerCaller M i h
        exact callerResultIff_updCo _ i _ h1 (h1 i)
    | callPre i j slot hi hj hij hr =>
        have h1 : callerResultIff (setLink M j i slot) :=
          callerResultIff_updCo M j _ h rfl
        have h2 : callerResultIff (wakeCallee (setLink M j i slot) j) := by
          unfold wakeCallee
          split_ifs
          · exact callerResultIff_updCo _ j _ h1 (h1 j)
          · exact callerResultIff_updCo _ j _ h1 (h1 j)
        exact callerResultIff_updCo _ i _ h2 (h2 i)
    | callPost i j hi hj hr hc => exact callerResultIff_updCo M j _ h rfl
    | waitStep i hi hr => exact callerResultIff_updCo M i _ h (h i)
    | exitStep i hi hr => exact callerResultIff_updCo M i _ h (h i)

/-- Witness for C6 at a concrete input: the invariant holds for a fresh one-coroutine
machine and is carried across a concrete `Start` transition. -/
theorem c6_caller_result_invariant_witness :
    callerResultIff (updCo (initialMachine 1) 0
      (fun c => { c with state := CoState.kCoReady })) :=
  c6_caller_result_invariant.2 (initialMachine 1) _ (fun _ => rfl)
    (MStep.startStep (initialMachine 1) 0 (by decide) rfl)

/-- Claim C7 (amended): at most one coroutine of a machine is in state Running at
any moment — the property holds for a fresh machine and is preserved by every
transition; machine states with no Running coroutine do occur. -/
theorem c7_at_most_one_running :
    (∀ n, atMostOneRunning (initialMachine n)) ∧
    ∀ M MM, atMostOneRunning M → MStep M MM → atMostOneRunning MM := by
  constructor
  · intro n x y hx hy hrx hry
    exact absurd hrx (by simp [initialMachine, initCoroutine])
  · intro M MM h st
    cases st with
    | startStep i hi hs =>
        refine atMostOneRunning_updCo M i _ h (fun hcon => absurd hcon ?_)
        simp
    | switchIn i hi hr hnone =>
        intro x y hx hy hrx hry
        by_cases hxi : x = i <;> by_cases hyi : y = i
        · rw [hxi, hyi]
        · exfalso
          simp [updCo, Function.update_apply, hyi] at hry
          exact hnone y hy hry
        · exfalso
          simp [updCo, Function.update_apply, hxi] at hrx
          exact hnone x hx hrx
        · exfalso
          simp [updCo, Function.update_apply, hyi] at hry
          exact hnone y hy hry
    | yieldStep i hi hr =>
        refine atMostOneRunning_updCo M i _ h (fun hcon => absurd hcon ?_)
        simp [yieldSuspendSpec]
    | yieldValueStep i hi hr =>
        have h1 : atMostOneRunning (triggerCaller M i) :=
          atMostOneRunning_congr M (triggerCaller M i) (triggerCaller_n M i)
            (fun k => triggerCaller_cos_state M i k) h
        refine atMostOneRunning_updCo _ i _ h1 (fun hcon => absurd hcon ?_)
        simp
    | callPre i j slot hi hj hij hr =>
        have h1 : atMostOneRunning (setLink M j i slot) :=
          atMostOneRunning_congr M (setLink M j i slot) rfl
            (fun k => setLink_cos_state M j i slot k) h
        have h2 : atMostOneRunning (wakeCallee (setLink M j i slot) j) := by
          intro x y hx hy hrx hry
          rw [wakeCallee_n] at hx hy
          exact h1 x y hx hy (wakeCallee_cos_state_running _ _ _ hrx)
            (wakeCallee_cos_state_running _ _ _ hry)
        refine atMostOneRunning_updCo _ i _ h2 (fun hcon => absurd hcon ?_)
        simp [callSuspend]
    | callPost i j hi hj hr hc =>
        exact atMostOneRunning_congr M (clearLink M j) rfl
          (fun k => clearLink_cos_state M j k) h
    | waitStep i hi hr =>
        refine atMostOneRunning_updCo M i _ h (fun hcon => absurd hcon ?_)
        simp
    | exitStep i hi hr =>
        refine atMostOneRunning_updCo M i _ h (fun hcon => absurd hcon ?_)
        simp

/-- Witness for C7 at a concrete input: at-most-one-Running holds for a fresh
one-coroutine machine and is carried across a concrete `Start` transition. -/
theorem c7_at_most_one_running_witness :
    atMostOneRunning (updCo (initialMachine 1) 0
      (fun c => { c with state := CoState.kCoReady })) :=
  c7_at_most_one_running.2 (initialMachine 1) _
    (fun x y _ _ hrx _ => absurd hrx (by simp [initialMachine, initCoroutine]))
    (MStep.startStep (initialMachine 1) 0 (by decide) rfl)

/-- Counterexample for C7 as stated: in a fresh two-coroutine machine — a reachable
moment, before the scheduler ever dispatches — no coroutine is Running, so it is not
the case that exactly one coroutine is Running at any moment. -/
theorem c7_counterexample : ¬ exactlyOneRunning (initialMachine 2) := by
  rintro ⟨i, _, hr, _⟩
  exact absurd hr (by simp [initialMachine, initCoroutine])

/-- Shape of a runnable scenario coroutine: Ready, or Yielded with the event set. -/
lemma isCandidate_cases (c : SimCo) (h : isCandidate c = true) :
    c.state = CoState.kCoReady ∨
      (c.state = CoState.kCoYielded ∧ c.event = true) := by
  cases hs : c.state <;> simp [isCandidate, hs] at h
  · exact Or.inl rfl
  · exact Or.inr ⟨rfl, h⟩

/-- One generator round: from the configuration in which the caller has just
dispatched a `Call` and the runnable callee still has `v :: rest` to yield, two
scheduling decisions deliver `v` (with the callee observed Yielded at the return of
the `Call`) and each further pair of decisions delivers the next value, until the
caller's body ends. -/
lemma run_from_mid (rest : List Nat) :
    ∀ (v : Nat) (acc : List (Nat × CoState)) (sl ta tb tk : Nat) (st : CoState)
      (ev : Bool), isCandidate (midB st ev (v :: rest) tb) = true →
    (simStep^[2 * rest.length + 2]
        { a := midA rest.length sl acc ta, b := midB st ev (v :: rest) tb,
          tick := tk } : Sim).a.retlog
      = acc ++ (v :: rest).map (fun w => (w, CoState.kCoYielded)) := by
  induction rest with
  | nil =>
      intro v acc sl ta tb tk st ev hcand
      rcases isCandidate_cases _ hcand with hst | ⟨hst, hev⟩
      · simp only [midB] at hst
        subst hst
        rfl
      · simp only [midB] at hst hev
        subst hst
        subst hev
        rfl
  | cons w rest2 ih =>
      intro v acc sl ta tb tk st ev hcand
      have hlen : 2 * (w :: rest2).length + 2 = 2 * rest2.length + 2 + 2 := by
        simp only [List.length_cons]
        omega
      rw [hlen, Function.iterate_add_apply]
      have h2 : (simStep^[2]
          ({ a := midA (w :: rest2).length sl acc ta,
             b := midB st ev (v :: w :: rest2) tb, tick := tk } : Sim))
          = { a := midA rest2.length v (acc ++ [(v, CoState.kCoYielded)]) (tk + 2),
              b := midB CoState.kCoYielded true (w :: rest2) (tk + 1),
              tick := tk + 2 } := by
        rcases isCandidate_cases _ hcand with hst | ⟨hst, hev⟩
        · simp only [midB] at hst
          subst hst
          rfl
        · simp only [midB] at hst hev
          subst hst
          subst hev
          rfl
      rw [h2, ih w (acc ++ [(v, CoState.kCoYielded)]) v (tk + 2) (tk + 1) (tk + 2)
        CoState.kCoYielded true rfl]
      simp

/-- Claim C2: when the callee's body yields `v1, v2, ...` in turn, the caller's
successive `Call<T>`s return `v1, v2, ...` in that order, and at the instant each
`Call` returns the callee is alive, suspended in state Yielded. -/
theorem c2_generator_semantics (vs : List Nat) :
    (runSim vs).a.retlog = vs.map (fun v => (v, CoState.kCoYielded)) := by
  cases vs with
  | nil => rfl
  | cons v rest =>
      have hlen : 2 * (v :: rest).length + 1 = 2 * rest.length + 2 + 1 := by
        simp only [List.length_cons]
        omega
      rw [runSim, hlen, Function.iterate_add_apply]
      have h1 : (simStep^[1] (genSim (v :: rest)) : Sim)
          = { a := midA rest.length 0 [] 1,
              b := midB CoState.kCoReady false (v :: rest) 0, tick := 1 } := rfl
      rw [h1, run_from_mid rest v [] 0 1 0 1 CoState.kCoReady false rfl]
      simp

/-- Claim C1 (amended): if the callee's body is `YieldValue(v); return;`, a single
`Call<T>` by the caller returns exactly `v` and leaves the callee alive, suspended
in state Yielded (not Dead — the callee's body never resumes past the yield, so its
return statement is not reached). -/
theorem c1_call_roundtrip (v : Nat) :
    (runSim [v]).a.retlog = [(v, CoState.kCoYielded)] ∧
    (runSim [v]).b.state = CoState.kCoYielded ∧
    (runSim [v]).b.state ≠ CoState.kCoDead := by
  have hb : (runSim [v]).b.state = CoState.kCoYielded := rfl
  refine ⟨rfl, hb, ?_⟩
  rw [hb]
  decide

/-- Counterexample for C1 as stated: with the callee's body `YieldValue(42); return;`
the single `Call` does return 42, but the callee is left Yielded, not Dead. -/
theorem c1_counterexample :
    (runSim [42]).a.retlog = [(42, CoState.kCoYielded)] ∧
    (runSim [42]).b.state = CoState.kCoYielded ∧
    ¬ ((runSim [42]).a.retlog.map Prod.fst = [42] ∧
       (runSim [42]).b.state = CoState.kCoDead) := by
  decide

end co
